import Mathlib

/-!
# A verification development for `shell.c`

A shallow embedding of the command interpreter of `src/shell.c`
(`process_command`, `perform_echo`, `update_environment_variable`,
`display_environment_variables`, `handle_redirection_and_piping`) together with a
small model of the C library and operating-system calls the interpreter makes.

Conventions of the embedding.

* A C string is the list of the characters that precede its terminating NUL
  (`CStr`); a `char *` that may be `NULL` is an `Option CStr`.
* The array `char *args[MAX_ARGUMENTS]` is a list of `Option CStr` slots; the
  slot written by `args[arg_count] = NULL` is part of the list.
* The interpreter is a state transformer on `World`; the system calls it makes
  are appended to `World.trace`, and a forked child is recorded in its `fork`
  event with the descriptor table it inherits and the calls it makes.
* Loops over `args` carry a bound on the slots still to visit; the section on
  the bounds shows that the bound never decides the result.
* The read loop of `main` and the two signal handlers are not part of the
  embedding.
-/

namespace Shell

/-- The characters of a NUL-terminated C string, the terminator excluded. -/
abbrev CStr := List Char

/-- The `#define MAX_ARGUMENTS 64` of the source. -/
def MAX_ARGUMENTS : Nat := 64

/-! ## The C library: `strtok` -/

/-- One call of `strtok` with the delimiter set `" "` on the unread rest of the
buffer: the leading delimiters are skipped; when nothing is left the call
returns `NULL`; otherwise the token runs up to the next delimiter, which is
overwritten with NUL, and the saved position is just behind it. The result is
the token together with the rest that the next `strtok(NULL, " ")` will scan. -/
def strtok (s : CStr) : Option (CStr × CStr) :=
  let s1 := s.dropWhile (fun c => c == ' ')
  match s1 with
  | [] => none
  | _ :: _ =>
    some (s1.takeWhile (fun c => c != ' '), (s1.dropWhile (fun c => c != ' ')).drop 1)

/-- The parsing loop of `process_command`:
`while (token != NULL && arg_count < MAX_ARGUMENTS - 1) { args[arg_count++] = token;
token = strtok(NULL, " "); }`. The first argument is the number of free slots
`MAX_ARGUMENTS - 1 - arg_count`, the second is the current `token`. -/
def parse_loop : Nat → Option (CStr × CStr) → List CStr
  | 0, _ => []
  | _ + 1, none => []
  | n + 1, some (token, rest) => token :: parse_loop n (strtok rest)

/-- The tokens that `process_command` stores in `args[0 .. arg_count)`. -/
def tokenize (command : CStr) : List CStr :=
  parse_loop (MAX_ARGUMENTS - 1) (strtok command)

/-- The array `args` after the parsing loop and `args[arg_count] = NULL`. -/
def parse_args (command : CStr) : List (Option CStr) :=
  (tokenize command).map some ++ [none]

/-! ## The operating system and the C library -/

/-- What a file descriptor refers to. -/
inductive Obj where
  | tty
  | file (path : CStr) (writing : Bool)
  | pipeRead (id : Nat)
  | pipeWrite (id : Nat)
  deriving DecidableEq, Repr

/-- A descriptor table: slot `fd` holds what descriptor `fd` refers to. -/
abbrev FdTable := List (Option Obj)

/-- What descriptor `fd` refers to, `none` when it is not open. -/
def fd_get (t : FdTable) (fd : Nat) : Option Obj := t.getD fd none

/-- The table with descriptor `fd` made to refer to `o`. -/
def fd_put (t : FdTable) (fd : Nat) (o : Option Obj) : FdTable :=
  if fd < t.length then t.set fd o else t ++ List.replicate (fd - t.length) none ++ [o]

/-- The lowest descriptor that is not open, which `open` and `pipe` hand out. -/
def lowest_free : FdTable → Nat
  | [] => 0
  | none :: _ => 0
  | some _ :: t => lowest_free t + 1

/-- The two flag sets `open` is called with. -/
inductive OpenMode where
  | rdonly
  | wronly_creat_trunc
  deriving DecidableEq, Repr

/-- A system call made by a forked child, in program order. The calls that
follow `execvp` are made only when `execvp` returns, which is when it fails. -/
inductive ChildAct where
  | dup2 (oldfd newfd : Nat)
  | close (fd : Nat)
  | alarm (seconds : Nat)
  | execvp (file : Option CStr) (argv : List CStr)
  | perror (msg : String)
  | exit (code : Nat)
  deriving DecidableEq, Repr

/-- A forked child: its process id, the descriptor table it inherits, and the
calls it makes. -/
structure Child where
  pid : Nat
  fds : FdTable
  acts : List ChildAct
  deriving DecidableEq, Repr

/-- A system or library call made by the interpreter process itself. -/
inductive Event where
  | chdir (path : Option CStr) (ok : Bool)
  | getcwd (ok : Bool)
  | setenv (name value : CStr) (ok : Bool)
  | openFile (path : Option CStr) (mode : OpenMode) (result : Option Nat)
  | dup2 (oldfd newfd : Nat)
  | close (fd : Nat)
  | pipe (rd wr : Nat)
  | fork (child : Option Child)
  | waitpid (pid : Option Nat)
  | alarm (seconds : Nat)
  | perror (msg : String)
  | exit (code : Nat)
  deriving DecidableEq, Repr

/-- The state of the interpreter process and of the part of the system it
touches. The last five fields are not changed by the interpreter's logic: they
say how the system answers (`fork_ok`, `can_create`, `can_read`,
`resolve_dir`) and which ids it hands out next. Failure of `pipe`, of `dup2`
and of `setenv` for lack of memory is not modelled. -/
structure World where
  /-- The table `environ`, one `NAME=VALUE` string per entry. -/
  environ : List CStr
  cwd : CStr
  fds : FdTable
  /-- The contents of the regular files. -/
  files : CStr → Option CStr
  /-- The text that has reached the terminal. -/
  term : CStr
  /-- Every character the interpreter has written to its standard output. -/
  out : CStr
  /-- The calls made so far, oldest first. -/
  trace : List Event
  /-- The exit status once the interpreter has called `exit`. -/
  exited : Option Nat
  fork_ok : Bool
  can_create : CStr → Bool
  can_read : CStr → Bool
  resolve_dir : CStr → CStr → Option CStr
  next_pid : Nat
  next_pipe : Nat

/-- Append a call to the trace. -/
def log (e : Event) (w : World) : World := { w with trace := w.trace ++ [e] }

/-- The library call `printf` with the formatted text `text`: the text goes to
whatever descriptor 1 refers to (buffering of the stream is not modelled). -/
def printf (text : CStr) (w : World) : World :=
  let w1 := { w with out := w.out ++ text }
  match fd_get w.fds 1 with
  | some Obj.tty => { w1 with term := w.term ++ text }
  | some (Obj.file p true) =>
    { w1 with files := fun q => if q = p then some ((w.files p).getD [] ++ text) else w.files q }
  | _ => w1

/-- The library call `perror`: a message on the diagnostic stream. -/
def perror (msg : String) (w : World) : World := log (Event.perror msg) w

/-- The library call `getenv`: the value of the first entry `name=value`;
`NULL` for the empty name. -/
def getenv (environ : List CStr) (name : CStr) : Option CStr :=
  match name with
  | [] => none
  | _ :: _ =>
    match environ.find? (fun e => (name ++ ['=']).isPrefixOf e) with
    | some e => some (e.drop (name.length + 1))
    | none => none

/-- The table after a successful `setenv(name, value, 1)`: the first entry for
`name` is replaced, or a new entry is added at the end. -/
def environ_set (name value : CStr) : List CStr → List CStr
  | [] => [name ++ '=' :: value]
  | e :: es =>
    if (name ++ ['=']).isPrefixOf e then (name ++ '=' :: value) :: es
    else e :: environ_set name value es

/-- The library call `setenv(name, value, 1)`: it fails (`EINVAL`) for an empty
name and for a name that contains `=`. The result is `true` for the return
value 0. -/
def setenv (name value : CStr) (w : World) : Bool × World :=
  if name = [] ∨ '=' ∈ name then (false, log (Event.setenv name value false) w)
  else (true, log (Event.setenv name value true)
    { w with environ := environ_set name value w.environ })

/-- The system call `chdir`; a `NULL` path fails (`EFAULT`). -/
def chdir (path : Option CStr) (w : World) : Bool × World :=
  match path with
  | none => (false, log (Event.chdir none false) w)
  | some p =>
    match w.resolve_dir w.cwd p with
    | some d => (true, log (Event.chdir (some p) true) { w with cwd := d })
    | none => (false, log (Event.chdir (some p) false) w)

/-- The library call `getcwd(directory, 1024)`: it fails (`ERANGE`) when the
path and its terminator do not fit. -/
def getcwd (w : World) : Option CStr × World :=
  if w.cwd.length < 1024 then (some w.cwd, log (Event.getcwd true) w)
  else (none, log (Event.getcwd false) w)

/-- The system call `open`; `none` is the return value -1. A `NULL` path fails
(`EFAULT`); `O_WRONLY | O_CREAT | O_TRUNC` empties or creates the file. -/
def openFile (path : Option CStr) (mode : OpenMode) (w : World) : Option Nat × World :=
  match path with
  | none => (none, log (Event.openFile none mode none) w)
  | some p =>
    match mode with
    | OpenMode.rdonly =>
      if w.can_read p then
        let fd := lowest_free w.fds
        (some fd, log (Event.openFile (some p) mode (some fd))
          { w with fds := fd_put w.fds fd (some (Obj.file p false)) })
      else (none, log (Event.openFile (some p) mode none) w)
    | OpenMode.wronly_creat_trunc =>
      if w.can_create p then
        let fd := lowest_free w.fds
        (some fd, log (Event.openFile (some p) mode (some fd))
          { w with fds := fd_put w.fds fd (some (Obj.file p true)),
                   files := fun q => if q = p then some [] else w.files q })
      else (none, log (Event.openFile (some p) mode none) w)

/-- The system call `dup2`: nothing happens when `oldfd` is not open. -/
def dup2 (oldfd newfd : Nat) (w : World) : World :=
  match fd_get w.fds oldfd with
  | none => log (Event.dup2 oldfd newfd) w
  | some o => log (Event.dup2 oldfd newfd) { w with fds := fd_put w.fds newfd (some o) }

/-- The system call `close`. -/
def close (fd : Nat) (w : World) : World :=
  match fd_get w.fds fd with
  | none => log (Event.close fd) w
  | some _ => log (Event.close fd) { w with fds := fd_put w.fds fd none }

/-- The system call `pipe(pipe_fds)`: the result is `(pipe_fds[0], pipe_fds[1])`. -/
def pipe (w : World) : (Nat × Nat) × World :=
  let rd := lowest_free w.fds
  let fds1 := fd_put w.fds rd (some (Obj.pipeRead w.next_pipe))
  let wr := lowest_free fds1
  let fds2 := fd_put fds1 wr (some (Obj.pipeWrite w.next_pipe))
  ((rd, wr), log (Event.pipe rd wr) { w with fds := fds2, next_pipe := w.next_pipe + 1 })

/-- The system call `fork` as the parent sees it; `acts` is what the code does
where `fork` returned 0. The result is the child's pid, `none` for -1. -/
def fork (acts : List ChildAct) (w : World) : Option Nat × World :=
  if w.fork_ok then
    (some w.next_pid, log (Event.fork (some ⟨w.next_pid, w.fds, acts⟩))
      { w with next_pid := w.next_pid + 1 })
  else (none, log (Event.fork none) w)

/-- The system call `waitpid(pid, NULL, 0)`. -/
def waitpid (pid : Option Nat) (w : World) : World := log (Event.waitpid pid) w

/-- The system call `alarm` made by the interpreter itself. -/
def alarm (seconds : Nat) (w : World) : World := log (Event.alarm seconds) w

/-! ## The interpreter -/

/-- The slot `args[i]`. -/
def arg (args : List (Option CStr)) (i : Nat) : Option CStr := args.getD i none

/-- The argument vector `execvp` reads at `&args[k]`: the slots up to the first
`NULL`. -/
def argv_from (args : List (Option CStr)) (k : Nat) : List CStr :=
  ((args.drop k).takeWhile Option.isSome).filterMap id

/-- The function `navigate_to_directory`. -/
def navigate_to_directory (path : Option CStr) (w : World) : World :=
  match chdir path w with
  | (true, w1) => w1
  | (false, w1) => perror "Error changing directory" w1

/-- The function `show_current_directory`. -/
def show_current_directory (w : World) : World :=
  match getcwd w with
  | (some directory, w1) => printf (directory ++ ['\n']) w1
  | (none, w1) => perror "Error retrieving current directory" w1

/-- The loop of `perform_echo`, `for (int i = 1; args[i] != NULL; i++)`, entered
at index `i`; the first argument bounds the number of slots still to visit. -/
def echo_loop : Nat → Nat → List (Option CStr) → World → World
  | 0, _, _, w => w
  | n + 1, i, args, w =>
    match arg args i with
    | none => w
    | some a =>
      if a.head? = some '$' then
        match getenv w.environ (a.drop 1) with
        | some value => echo_loop n (i + 1) args (printf (value ++ [' ']) w)
        | none => echo_loop n (i + 1) args w
      else echo_loop n (i + 1) args (printf (a ++ [' ']) w)

/-- The function `perform_echo`. -/
def perform_echo (args : List (Option CStr)) (w : World) : World :=
  printf ['\n'] (echo_loop args.length 1 args w)

/-- The function `update_environment_variable`. -/
def update_environment_variable (name value : CStr) (w : World) : World :=
  match setenv name value w with
  | (true, w1) => w1
  | (false, w1) => perror "Error setting environment variable" w1

/-- The loop of `display_environment_variables` over `environ`. -/
def print_environ : List CStr → World → World
  | [], w => w
  | e :: es, w => print_environ es (printf (e ++ ['\n']) w)

/-- The function `display_environment_variables`. -/
def display_environment_variables (args : List (Option CStr)) (w : World) : World :=
  match arg args 1 with
  | some name =>
    match getenv w.environ name with
    | some value => printf (value ++ ['\n']) w
    | none =>
      printf ("Environment variable '".toList ++ name ++ "' not found\n".toList) w
  | none => print_environ w.environ w

/-- The local variables of `handle_redirection_and_piping` during its first
loop, with the world. `pipe_fds` is `(0, 0)` while the array is uninitialised. -/
structure PipeScan where
  args : List (Option CStr)
  has_pipe : Bool
  pipe_fds : Nat × Nat
  w : World

/-- The first loop of `handle_redirection_and_piping`,
`for (int i = 0; args[i] != NULL; i++)`, entered at index `i`; the first argument
bounds the number of slots still to visit. -/
def pipe_loop : Nat → Nat → PipeScan → PipeScan
  | 0, _, s => s
  | n + 1, i, s =>
    match arg s.args i with
    | none => s
    | some a =>
      if a = "|".toList then
        let r := pipe s.w
        pipe_loop n (i + 1)
          { args := s.args.set i none, has_pipe := true, pipe_fds := r.1, w := r.2 }
      else pipe_loop n (i + 1) s

/-- The second loop of `handle_redirection_and_piping`, entered at index `i`.
The result is the return value (when the loop returns 0) or 1 (the `return 1`
that follows the loop), the array and the world. -/
def redirect_loop : Nat → Nat → List (Option CStr) → World → Nat × List (Option CStr) × World
  | 0, _, args, w => (1, args, w)
  | n + 1, i, args, w =>
    match arg args i with
    | none => (1, args, w)
    | some a =>
      if a = ">".toList then
        match openFile (arg args (i + 1)) OpenMode.wronly_creat_trunc w with
        | (none, w1) => (0, args, perror "Error opening file for output redirection" w1)
        | (some output_fd, w1) => (1, args.set i none, close output_fd (dup2 output_fd 1 w1))
      else if a = "<".toList then
        match openFile (arg args (i + 1)) OpenMode.rdonly w with
        | (none, w1) => (0, args, perror "Error opening file for input redirection" w1)
        | (some input_fd, w1) => (1, args.set i none, close input_fd (dup2 input_fd 0 w1))
      else redirect_loop n (i + 1) args w

/-- The branch `if (has_pipe)` of `handle_redirection_and_piping`. -/
def run_pipeline (s : PipeScan) : World :=
  let rd := s.pipe_fds.1
  let wr := s.pipe_fds.2
  let r1 := fork [ChildAct.dup2 wr 1, ChildAct.close rd, ChildAct.close wr,
    ChildAct.execvp (arg s.args 0) (argv_from s.args 0),
    ChildAct.perror "Pipeline execution error", ChildAct.exit 1] s.w
  let r2 := fork [ChildAct.dup2 rd 0, ChildAct.close rd, ChildAct.close wr,
    ChildAct.execvp (arg s.args 1) (argv_from s.args 1),
    ChildAct.perror "Pipeline execution error", ChildAct.exit 1] r1.2
  waitpid r2.1 (waitpid r1.1 (close wr (close rd r2.2)))

/-- The function `handle_redirection_and_piping`: its return value, the array
`args` as it leaves it, and the world. -/
def handle_redirection_and_piping (args : List (Option CStr)) (w : World) :
    Nat × List (Option CStr) × World :=
  let s := pipe_loop args.length 0 { args := args, has_pipe := false, pipe_fds := (0, 0), w := w }
  if s.has_pipe then (0, s.args, run_pipeline s)
  else redirect_loop s.args.length 0 s.args s.w

/-- The last branch of `process_command`: redirection and piping, then the
launch of the external command. -/
def execute_external (args : List (Option CStr)) (w : World) : World :=
  match handle_redirection_and_piping args w with
  | (0, _, w1) => w1
  | (_ + 1, args1, w1) =>
    match fork [ChildAct.alarm 10, ChildAct.execvp (arg args1 0) (argv_from args1 0),
        ChildAct.perror "Error executing command", ChildAct.exit 1] w1 with
    | (some pid, w2) => alarm 0 (waitpid (some pid) w2)
    | (none, w2) => perror "Failed to create process" w2

/-- The function `process_command`. -/
def process_command (command : CStr) (w : World) : World :=
  let args := parse_args command
  match arg args 0 with
  | none => w
  | some a0 =>
    if a0 = "cd".toList then navigate_to_directory (arg args 1) w
    else if a0 = "pwd".toList then show_current_directory w
    else if a0 = "echo".toList then perform_echo args w
    else if a0 = "env".toList then display_environment_variables args w
    else if a0 = "setenv".toList ∧ (arg args 1).isSome ∧ (arg args 2).isSome then
      update_environment_variable ((arg args 1).getD []) ((arg args 2).getD []) w
    else if a0 = "exit".toList then log (Event.exit 0) { w with exited := some 0 }
    else execute_external args w

/-! ## The specification side of the tokenizer -/

/-- The non-empty maximal space-free substrings of a line, left to right: the
line is cut at every space and the empty pieces are dropped. -/
def words (line : CStr) : List CStr :=
  (line.splitOn ' ').filter (fun t => !t.isEmpty)

/-! ## The specification side of `echo` -/

/-- What one argument of `echo` stands for: the value of the named variable
for an argument that begins with `$` (nothing when the variable is unset), the
argument itself otherwise. -/
def echo_piece (environ : List CStr) (a : CStr) : Option CStr :=
  if a.head? = some '$' then getenv environ (a.drop 1) else some a

/-- The line of `echo` with the pieces separated from one another by one space
and no space after the last one, then a newline. -/
def echo_text_separated (environ : List CStr) (rest : List CStr) : CStr :=
  [' '].intercalate (rest.filterMap (echo_piece environ)) ++ ['\n']

/-- The line of `echo` with every piece followed by one space, the last one
included, then a newline. -/
def echo_text_followed (environ : List CStr) (rest : List CStr) : CStr :=
  ((rest.filterMap (echo_piece environ)).map (fun p => p ++ [' '])).flatten ++ ['\n']

/-! ## Observations on a trace -/

/-- The `execvp` calls among the calls of one child: program name and argument
vector. -/
def child_execs : List ChildAct → List (Option CStr × List CStr)
  | [] => []
  | ChildAct.execvp file argv :: rest => (file, argv) :: child_execs rest
  | _ :: rest => child_execs rest

/-- The `execvp` calls of the children forked in a trace, in fork order. -/
def execs : List Event → List (Option CStr × List CStr)
  | [] => []
  | Event.fork (some c) :: rest => child_execs c.acts ++ execs rest
  | _ :: rest => execs rest

/-- The number of `fork` calls in a trace. -/
def fork_count : List Event → Nat
  | [] => 0
  | Event.fork _ :: rest => fork_count rest + 1
  | _ :: rest => fork_count rest

/-- The messages passed to `perror` in a trace. -/
def perrors : List Event → List String
  | [] => []
  | Event.perror msg :: rest => msg :: perrors rest
  | _ :: rest => perrors rest

/-- The six names the classifier of `process_command` compares `args[0]` with. -/
def builtin_names : List CStr :=
  ["cd".toList, "pwd".toList, "echo".toList, "env".toList, "setenv".toList, "exit".toList]

/-- The three operator tokens. -/
def operators : List CStr := ["|".toList, "<".toList, ">".toList]

/-- The flags of the `open` call for the operator token `op`. -/
def redirect_mode (op : CStr) : OpenMode :=
  if op = ">".toList then OpenMode.wronly_creat_trunc else OpenMode.rdonly

/-- The descriptor the opened file is duplicated onto for the operator `op`. -/
def redirect_target (op : CStr) : Nat := if op = ">".toList then 1 else 0

/-- The message reported when the `open` call for the operator `op` fails. -/
def redirect_error (op : CStr) : String :=
  if op = ">".toList then "Error opening file for output redirection"
  else "Error opening file for input redirection"

/-- The calls the parent makes from `fork()` on in the last branch of
`process_command`, when the child's table is `fds` and `execvp` gets the program
name `file` and the vector `argv`. -/
def launch_trace (w : World) (fds : FdTable) (file : Option CStr) (argv : List CStr) :
    List Event :=
  if w.fork_ok then
    [Event.fork (some ⟨w.next_pid, fds, [ChildAct.alarm 10, ChildAct.execvp file argv,
        ChildAct.perror "Error executing command", ChildAct.exit 1]⟩),
      Event.waitpid (some w.next_pid), Event.alarm 0]
  else [Event.fork none, Event.perror "Failed to create process"]

/-- A concrete world: a terminal on descriptors 0, 1 and 2, no regular file,
`HOME` bound, every `fork` and every `open` succeeds. -/
def w0 : World :=
  { environ := ["HOME=/root".toList], cwd := "/".toList,
    fds := [some Obj.tty, some Obj.tty, some Obj.tty],
    files := fun _ => none, term := [], out := [], trace := [], exited := none,
    fork_ok := true, can_create := fun _ => true, can_read := fun _ => true,
    resolve_dir := fun _ p => some p, next_pid := 100, next_pipe := 0 }

/-- The world `w0` where no file can be opened. -/
def w0_locked : World :=
  { w0 with can_create := fun _ => false, can_read := fun _ => false }

/-! ## The tokenizer -/


theorem words_nil : words [] = [] := by
  simp [words, List.splitOn]

theorem words_space (s : CStr) : words (' ' :: s) = words s := by
  unfold words List.splitOn
  rw [List.splitOnP_cons]
  simp [List.filter]

theorem takeWhile_no_space (s : CStr) : ' ' ∉ s.takeWhile (fun c => c != ' ') := by
  intro h
  have := List.mem_takeWhile_imp h
  simp at this

theorem words_token (t r : CStr) (ht : t ≠ []) (hs : ' ' ∉ t) :
    words (t ++ ' ' :: r) = t :: words r := by
  unfold words List.splitOn
  rw [List.splitOnP_first]
  · cases t with
    | nil => exact absurd rfl ht
    | cons a t => simp [List.filter]
  · intro x hx hx2
    have : x = ' ' := by simpa using hx2
    exact hs (this ▸ hx)
  · simp

theorem words_single (t : CStr) (ht : t ≠ []) (hs : ' ' ∉ t) : words t = [t] := by
  unfold words List.splitOn
  rw [List.splitOnP_eq_single]
  · cases t with
    | nil => exact absurd rfl ht
    | cons a t => simp [List.filter]
  · intro x hx hx2
    have : x = ' ' := by simpa using hx2
    exact hs (this ▸ hx)

theorem strtok_space (s : CStr) : strtok (' ' :: s) = strtok s := by
  simp [strtok, List.dropWhile]

theorem strtok_spec (s : CStr) :
    match strtok s with
    | none => words s = []
    | some (tok, rest) => tok ≠ [] ∧ ' ' ∉ tok ∧ words s = tok :: words rest := by
  induction s with
  | nil => simp [strtok, words_nil]
  | cons c s ih =>
    by_cases hc : c = ' '
    · subst hc
      rw [strtok_space, words_space]
      exact ih
    · have h1 : strtok (c :: s) = some (c :: s.takeWhile (fun c => c != ' '),
          (s.dropWhile (fun c => c != ' ')).drop 1) := by
        have hb : (c == ' ') = false := by simp [hc]
        have hb2 : (c != ' ') = true := by simp [hc]
        simp [strtok, List.dropWhile, List.takeWhile, hb, hb2]
      rw [h1]
      refine ⟨by simp, ?_, ?_⟩
      · intro h
        rcases List.mem_cons.1 h with h | h
        · exact hc h.symm
        · exact takeWhile_no_space s h
      · have hsplit : c :: s = (c :: s.takeWhile (fun c => c != ' ')) ++
            s.dropWhile (fun c => c != ' ') := by
          simp [List.takeWhile_append_dropWhile]
        have hns : ' ' ∉ c :: s.takeWhile (fun c => c != ' ') := by
          intro h
          rcases List.mem_cons.1 h with h | h
          · exact hc h.symm
          · exact takeWhile_no_space s h
        cases hd : s.dropWhile (fun c => c != ' ') with
        | nil =>
          rw [hd] at hsplit
          simp only [List.append_nil] at hsplit
          rw [hsplit]
          simp [words_nil]
          exact words_single _ (by simp) hns
        | cons d r =>
          have hd2 : d = ' ' := by
            have := List.head_dropWhile_not (fun c => c != ' ') s (by rw [hd]; simp)
            simpa [hd] using this
          subst hd2
          rw [hd] at hsplit
          conv_lhs => rw [hsplit]
          simp only [List.drop_succ_cons, List.drop_zero]
          exact words_token _ r (by simp) hns

theorem parse_loop_spec (n : Nat) (s : CStr) :
    parse_loop n (strtok s) = (words s).take n ∧
      ∀ t ∈ parse_loop n (strtok s), t ≠ [] ∧ ' ' ∉ t := by
  induction n generalizing s with
  | zero => simp [parse_loop]
  | succ n ih =>
    have h := strtok_spec s
    cases hs : strtok s with
    | none =>
      rw [hs] at h
      simp [parse_loop, h]
    | some p =>
      obtain ⟨tok, rest⟩ := p
      rw [hs] at h
      simp only at h
      obtain ⟨h1, h2, h3⟩ := h
      simp only [parse_loop, h3, List.take_succ_cons, List.cons.injEq, true_and, List.mem_cons]
      refine ⟨(ih rest).1, ?_⟩
      intro t ht
      rcases ht with ht | ht
      · subst ht; exact ⟨h1, h2⟩
      · exact (ih rest).2 t ht

theorem parse_loop_length (n : Nat) (o : Option (CStr × CStr)) : (parse_loop n o).length ≤ n := by
  induction n generalizing o with
  | zero => simp [parse_loop]
  | succ n ih =>
    cases o with
    | none => simp [parse_loop]
    | some p =>
      obtain ⟨tok, rest⟩ := p
      simp [parse_loop, ih]

/-- C1. For every input line the tokens stored by the parsing loop of
`process_command` are the first 63 (or all, when there are fewer) of the non-empty
maximal space-free substrings of the line, in order and unmodified; no token is
empty, no token contains a space, at most 63 tokens precede the terminator, and
the array is those tokens followed by the `NULL` terminator. -/
theorem C1_tokenize_spec (line : CStr) :
    tokenize line = (words line).take (min (words line).length 63) ∧
    (∀ t ∈ tokenize line, t ≠ [] ∧ ' ' ∉ t) ∧
    (tokenize line).length ≤ 63 ∧
    parse_args line = ((words line).take (min (words line).length 63)).map some ++ [none] := by
  have h := parse_loop_spec (MAX_ARGUMENTS - 1) line
  have h63 : MAX_ARGUMENTS - 1 = 63 := rfl
  have ht : tokenize line = (words line).take (min (words line).length 63) := by
    unfold tokenize
    rw [h.1, h63]
    rcases Nat.le_total (words line).length 63 with hl | hl
    · rw [Nat.min_eq_left hl, List.take_of_length_le hl, List.take_of_length_le (le_refl _)]
    · rw [Nat.min_eq_right hl]
  refine ⟨ht, h.2, ?_, ?_⟩
  · exact parse_loop_length _ _
  · unfold parse_args; rw [ht]

/-! ## The calls of the model and the fields they leave alone -/

@[simp] theorem log_trace (e : Event) (w : World) : (log e w).trace = w.trace ++ [e] := rfl
@[simp] theorem log_fds (e : Event) (w : World) : (log e w).fds = w.fds := rfl
@[simp] theorem log_environ (e : Event) (w : World) : (log e w).environ = w.environ := rfl
@[simp] theorem log_fork_ok (e : Event) (w : World) : (log e w).fork_ok = w.fork_ok := rfl
@[simp] theorem log_next_pid (e : Event) (w : World) : (log e w).next_pid = w.next_pid := rfl

@[simp] theorem perror_trace (m : String) (w : World) :
    (perror m w).trace = w.trace ++ [Event.perror m] := rfl
@[simp] theorem perror_fds (m : String) (w : World) : (perror m w).fds = w.fds := rfl
@[simp] theorem perror_environ (m : String) (w : World) :
    (perror m w).environ = w.environ := rfl

@[simp] theorem waitpid_trace (p : Option Nat) (w : World) :
    (waitpid p w).trace = w.trace ++ [Event.waitpid p] := rfl
@[simp] theorem waitpid_fds (p : Option Nat) (w : World) : (waitpid p w).fds = w.fds := rfl
@[simp] theorem waitpid_environ (p : Option Nat) (w : World) :
    (waitpid p w).environ = w.environ := rfl

@[simp] theorem alarm_trace (n : Nat) (w : World) :
    (alarm n w).trace = w.trace ++ [Event.alarm n] := rfl
@[simp] theorem alarm_fds (n : Nat) (w : World) : (alarm n w).fds = w.fds := rfl
@[simp] theorem alarm_environ (n : Nat) (w : World) : (alarm n w).environ = w.environ := rfl

@[simp] theorem dup2_trace (a b : Nat) (w : World) :
    (dup2 a b w).trace = w.trace ++ [Event.dup2 a b] := by
  unfold dup2; split <;> rfl
@[simp] theorem dup2_environ (a b : Nat) (w : World) : (dup2 a b w).environ = w.environ := by
  unfold dup2; split <;> rfl
@[simp] theorem dup2_fork_ok (a b : Nat) (w : World) : (dup2 a b w).fork_ok = w.fork_ok := by
  unfold dup2; split <;> rfl
@[simp] theorem dup2_next_pid (a b : Nat) (w : World) : (dup2 a b w).next_pid = w.next_pid := by
  unfold dup2; split <;> rfl

@[simp] theorem close_trace (a : Nat) (w : World) :
    (close a w).trace = w.trace ++ [Event.close a] := by
  unfold close; split <;> rfl
@[simp] theorem close_environ (a : Nat) (w : World) : (close a w).environ = w.environ := by
  unfold close; split <;> rfl
@[simp] theorem close_fork_ok (a : Nat) (w : World) : (close a w).fork_ok = w.fork_ok := by
  unfold close; split <;> rfl
@[simp] theorem close_next_pid (a : Nat) (w : World) : (close a w).next_pid = w.next_pid := by
  unfold close; split <;> rfl

@[simp] theorem pipe_environ (w : World) : (pipe w).2.environ = w.environ := rfl

@[simp] theorem openFile_environ (p : Option CStr) (m : OpenMode) (w : World) :
    (openFile p m w).2.environ = w.environ := by
  unfold openFile
  cases p with
  | none => rfl
  | some p => cases m <;> simp only <;> split <;> rfl

@[simp] theorem openFile_fork_ok (p : Option CStr) (m : OpenMode) (w : World) :
    (openFile p m w).2.fork_ok = w.fork_ok := by
  unfold openFile
  cases p with
  | none => rfl
  | some p => cases m <;> simp only <;> split <;> rfl

@[simp] theorem openFile_next_pid (p : Option CStr) (m : OpenMode) (w : World) :
    (openFile p m w).2.next_pid = w.next_pid := by
  unfold openFile
  cases p with
  | none => rfl
  | some p => cases m <;> simp only <;> split <;> rfl

@[simp] theorem fork_environ (acts : List ChildAct) (w : World) :
    (fork acts w).2.environ = w.environ := by
  unfold fork; split <;> rfl
@[simp] theorem fork_fds (acts : List ChildAct) (w : World) : (fork acts w).2.fds = w.fds := by
  unfold fork; split <;> rfl

@[simp] theorem printf_trace (t : CStr) (w : World) : (printf t w).trace = w.trace := by
  unfold printf; split <;> rfl
@[simp] theorem printf_fds (t : CStr) (w : World) : (printf t w).fds = w.fds := by
  unfold printf; split <;> rfl
@[simp] theorem printf_environ (t : CStr) (w : World) : (printf t w).environ = w.environ := by
  unfold printf; split <;> rfl
@[simp] theorem printf_out (t : CStr) (w : World) : (printf t w).out = w.out ++ t := by
  unfold printf; split <;> rfl

/-- The launch of the external command at the end of `process_command`: the
parent's calls are `launch_trace`, its descriptor table is not touched. -/
theorem launch_spec (args : List (Option CStr)) (w : World) :
    ∀ r, r = (match fork [ChildAct.alarm 10, ChildAct.execvp (arg args 0) (argv_from args 0),
        ChildAct.perror "Error executing command", ChildAct.exit 1] w with
      | (some pid, w2) => alarm 0 (waitpid (some pid) w2)
      | (none, w2) => perror "Failed to create process" w2) →
    r.trace = w.trace ++ launch_trace w w.fds (arg args 0) (argv_from args 0) ∧
      r.fds = w.fds ∧ r.environ = w.environ := by
  intro r hr
  subst hr
  unfold fork launch_trace
  cases h : w.fork_ok <;> simp [h]

/-! ## The array `args` -/

theorem arg_tokens (ts : List CStr) (tl : List (Option CStr)) (j : Nat) (h : j < ts.length) :
    arg (ts.map some ++ tl) j = some (ts.get ⟨j, h⟩) := by
  induction ts generalizing j with
  | nil => simp at h
  | cons t ts ih =>
    cases j with
    | zero => rfl
    | succ j =>
      have := ih j (by simpa using h)
      simpa [arg] using this

theorem arg_tokens_end (ts : List CStr) (tl : List (Option CStr)) :
    arg (ts.map some ++ tl) ts.length = tl.getD 0 none := by
  induction ts with
  | nil => simp [arg]
  | cons t ts ih => simpa [arg] using ih

theorem arg_tokens_end_succ (ts : List CStr) (x : Option CStr) (tl : List (Option CStr)) :
    arg (ts.map some ++ x :: tl) (ts.length + 1) = tl.getD 0 none := by
  induction ts with
  | nil => simp [arg]
  | cons t ts ih => simpa [arg] using ih

theorem set_tokens (ts : List CStr) (x : Option CStr) (tl : List (Option CStr))
    (y : Option CStr) :
    (ts.map some ++ x :: tl).set ts.length y = ts.map some ++ y :: tl := by
  induction ts with
  | nil => rfl
  | cons t ts ih => simp [List.set, ih]

theorem argv_from_tokens (ts : List CStr) (tl : List (Option CStr)) :
    argv_from (ts.map some ++ none :: tl) 0 = ts := by
  induction ts with
  | nil => simp [argv_from]
  | cons t ts ih =>
    simp only [argv_from, List.drop_zero] at ih
    simp [argv_from, List.takeWhile, ih]

theorem arg_zero_tokens (ts : List CStr) (tl : List (Option CStr)) :
    arg (ts.map some ++ none :: tl) 0 = ts.head? := by
  cases ts <;> rfl

/-! ## The two loops of `handle_redirection_and_piping` -/

/-- The first loop passes over slots that hold tokens other than `|` without
changing anything. -/
theorem pipe_loop_skip (s : PipeScan) (k : Nat) :
    ∀ (d i n : Nat), i + d = k →
      (∀ j, i ≤ j → j < k → ∃ a, arg s.args j = some a ∧ a ≠ "|".toList) →
      pipe_loop (d + n) i s = pipe_loop n k s := by
  intro d
  induction d with
  | zero =>
    intro i n hi _
    have : i = k := by omega
    subst this
    simp
  | succ d ih =>
    intro i n hi h
    obtain ⟨a, ha, hne⟩ := h i (le_refl i) (by omega)
    have e : d + 1 + n = (d + n) + 1 := by omega
    rw [e, pipe_loop, ha]
    simp only [hne, if_false]
    exact ih (i + 1) n (by omega) (fun j h1 h2 => h j (by omega) h2)

/-- The first loop stops at a `NULL` slot. -/
theorem pipe_loop_stop (s : PipeScan) (n k : Nat) (h : arg s.args k = none) :
    pipe_loop n k s = s := by
  cases n with
  | zero => rfl
  | succ n => rw [pipe_loop, h]

/-- The second loop passes over slots that hold tokens other than `<` and `>`. -/
theorem redirect_loop_skip (args : List (Option CStr)) (w : World) (k : Nat) :
    ∀ (d i n : Nat), i + d = k →
      (∀ j, i ≤ j → j < k → ∃ a, arg args j = some a ∧ a ≠ ">".toList ∧ a ≠ "<".toList) →
      redirect_loop (d + n) i args w = redirect_loop n k args w := by
  intro d
  induction d with
  | zero =>
    intro i n hi _
    have : i = k := by omega
    subst this
    simp
  | succ d ih =>
    intro i n hi h
    obtain ⟨a, ha, hne1, hne2⟩ := h i (le_refl i) (by omega)
    have e : d + 1 + n = (d + n) + 1 := by omega
    rw [e, redirect_loop, ha]
    simp only [hne1, hne2, if_false]
    exact ih (i + 1) n (by omega) (fun j h1 h2 => h j (by omega) h2)

/-- The second loop stops at a `NULL` slot and the function returns 1. -/
theorem redirect_loop_stop (args : List (Option CStr)) (w : World) (n k : Nat)
    (h : arg args k = none) : redirect_loop n k args w = (1, args, w) := by
  cases n with
  | zero => rfl
  | succ n => rw [redirect_loop, h]

/-! ## The bounds of the loops are never what stops them

Each loop of the embedding carries a bound on the slots still to visit and is
entered with the length of the array. A slot behind the end of the list reads as
`NULL`, so a larger bound gives the same result: the loops stop at a `NULL`
slot (or at their `return`), as in the source. -/

theorem arg_beyond (args : List (Option CStr)) (i : Nat) (h : args.length ≤ i) :
    arg args i = none := by
  induction args generalizing i with
  | nil => rfl
  | cons a args ih =>
    cases i with
    | zero => simp at h
    | succ i => simpa [arg] using ih i (by simpa using h)

theorem redirect_loop_bound (args : List (Option CStr)) (w : World) (n : Nat) :
    ∀ (i m : Nat), args.length ≤ i + n → n ≤ m →
      redirect_loop m i args w = redirect_loop n i args w := by
  induction n with
  | zero =>
    intro i m h _
    rw [redirect_loop_stop args w m i (arg_beyond args i (by omega))]
    rfl
  | succ n ih =>
    intro i m h hm
    obtain ⟨k, rfl⟩ : ∃ k, m = k + 1 := ⟨m - 1, by omega⟩
    rw [redirect_loop, redirect_loop, ih (i + 1) k (by omega) (by omega)]

theorem pipe_loop_bound (n : Nat) :
    ∀ (s : PipeScan) (i m : Nat), s.args.length ≤ i + n → n ≤ m →
      pipe_loop m i s = pipe_loop n i s := by
  induction n with
  | zero =>
    intro s i m h _
    rw [pipe_loop_stop s m i (arg_beyond s.args i (by omega))]
    rfl
  | succ n ih =>
    intro s i m h hm
    obtain ⟨k, rfl⟩ : ∃ k, m = k + 1 := ⟨m - 1, by omega⟩
    rw [pipe_loop, pipe_loop, ih s (i + 1) k (by omega) (by omega)]
    rw [ih _ (i + 1) k (by simp; omega) (by omega)]

theorem echo_loop_bound (args : List (Option CStr)) (n : Nat) :
    ∀ (w : World) (i m : Nat), args.length ≤ i + n → n ≤ m →
      echo_loop m i args w = echo_loop n i args w := by
  induction n with
  | zero =>
    intro w i m h _
    have ha := arg_beyond args i (by omega)
    cases m with
    | zero => rfl
    | succ m => simp only [echo_loop, ha]
  | succ n ih =>
    intro w i m h hm
    obtain ⟨k, rfl⟩ : ∃ k, m = k + 1 := ⟨m - 1, by omega⟩
    rw [echo_loop, echo_loop, ih w (i + 1) k (by omega) (by omega)]
    cases arg args i with
    | none => rfl
    | some a =>
      simp only
      split
      · cases getenv w.environ (a.drop 1) with
        | none => rfl
        | some value => simp only; rw [ih _ (i + 1) k (by omega) (by omega)]
      · rw [ih _ (i + 1) k (by omega) (by omega)]

/-- Without a `|` token the first loop leaves its state as it was. -/
theorem pipe_loop_tokens (ts : List CStr) (w : World)
    (h : ∀ t ∈ ts, t ≠ "|".toList) :
    pipe_loop (ts.map some ++ [none]).length 0
        { args := ts.map some ++ [none], has_pipe := false, pipe_fds := (0, 0), w := w } =
      { args := ts.map some ++ [none], has_pipe := false, pipe_fds := (0, 0), w := w } := by
  have hl : (ts.map some ++ [none]).length = ts.length + 1 := by simp
  rw [hl, pipe_loop_skip _ ts.length ts.length 0 1 (by omega)]
  · exact pipe_loop_stop _ _ _ (by simp [arg_tokens_end])
  · intro j _ hj
    exact ⟨ts.get ⟨j, hj⟩, arg_tokens ts [none] j hj, h _ (List.get_mem ts j hj)⟩

/-- Without a `|` token `handle_redirection_and_piping` is its second loop. -/
theorem handle_no_pipe (ts : List CStr) (w : World) (h : ∀ t ∈ ts, t ≠ "|".toList) :
    handle_redirection_and_piping (ts.map some ++ [none]) w =
      redirect_loop (ts.length + 1) 0 (ts.map some ++ [none]) w := by
  unfold handle_redirection_and_piping
  simp only [pipe_loop_tokens ts w h]
  simp

/-- The classifier sends a line whose first token is none of the six built-in
names to the last branch. -/
theorem process_command_external (line : CStr) (w : World) (t0 : CStr) (rest : List CStr)
    (htok : tokenize line = t0 :: rest) (hb : t0 ∉ builtin_names) :
    process_command line w = execute_external (parse_args line) w := by
  have h0 : arg (parse_args line) 0 = some t0 := by simp [parse_args, htok, arg]
  simp only [builtin_names, List.mem_cons, List.mem_singleton, not_or, List.not_mem_nil,
    or_false] at hb
  obtain ⟨h1, h2, h3, h4, h5, h6⟩ := hb
  unfold process_command
  simp only [h0, h1, h2, h3, h4, h5, h6, if_false, false_and]

/-- Without any operator token `handle_redirection_and_piping` returns 1 and
changes neither the array nor the world. -/
theorem handle_plain (ts : List CStr) (w : World) (h : ∀ t ∈ ts, t ∉ operators) :
    handle_redirection_and_piping (ts.map some ++ [none]) w = (1, ts.map some ++ [none], w) := by
  have hop : ∀ t ∈ ts, t ≠ "|".toList ∧ t ≠ "<".toList ∧ t ≠ ">".toList := by
    intro t ht
    have := h t ht
    simpa [operators, not_or] using this
  rw [handle_no_pipe ts w (fun t ht => (hop t ht).1),
    redirect_loop_skip _ w ts.length ts.length 0 1 (by omega)]
  · exact redirect_loop_stop _ _ _ _ (by simp [arg_tokens_end])
  · intro j _ hj
    exact ⟨ts.get ⟨j, hj⟩, arg_tokens ts [none] j hj,
      (hop _ (List.get_mem ts j hj)).2.2, (hop _ (List.get_mem ts j hj)).2.1⟩

/-! ## External commands without operators -/

/-- C3. For every line whose first token is none of `cd`, `pwd`, `echo`, `env`,
`setenv`, `exit` and none of whose tokens is `|`, `<` or `>`:
`handle_redirection_and_piping` returns 1 and leaves the argument vector and the
world as they were (no file opened, no pipe created), and the calls
`process_command` makes are exactly one `fork`, whose child calls `execvp` with
the program name `token[0]` and the full tokenizer output as argument vector,
followed by the parent's wait (or by the error report when `fork` fails); the
interpreter's descriptor table is unchanged. -/
theorem C3_plain_command_launch (line : CStr) (w : World) (t0 : CStr) (rest : List CStr)
    (htok : tokenize line = t0 :: rest)
    (hb : t0 ∉ builtin_names)
    (hop : ∀ t ∈ tokenize line, t ∉ operators) :
    handle_redirection_and_piping (parse_args line) w = (1, parse_args line, w) ∧
    (process_command line w).trace =
      w.trace ++ launch_trace w w.fds (some t0) (tokenize line) ∧
    fork_count (launch_trace w w.fds (some t0) (tokenize line)) = 1 ∧
    (w.fork_ok = true →
      execs (launch_trace w w.fds (some t0) (tokenize line)) = [(some t0, tokenize line)]) ∧
    (process_command line w).fds = w.fds := by
  have hh : handle_redirection_and_piping (parse_args line) w = (1, parse_args line, w) :=
    handle_plain (tokenize line) w hop
  have hp : process_command line w =
      (match fork [ChildAct.alarm 10,
          ChildAct.execvp (arg (parse_args line) 0) (argv_from (parse_args line) 0),
          ChildAct.perror "Error executing command", ChildAct.exit 1] w with
        | (some pid, w2) => alarm 0 (waitpid (some pid) w2)
        | (none, w2) => perror "Failed to create process" w2) := by
    rw [process_command_external line w t0 rest htok hb]
    unfold execute_external
    rw [hh]
  have ha : arg (parse_args line) 0 = some t0 := by simp [parse_args, htok, arg]
  have hv : argv_from (parse_args line) 0 = tokenize line := argv_from_tokens _ []
  have hl := launch_spec (parse_args line) w _ hp
  rw [ha, hv] at hl
  refine ⟨hh, hl.1, ?_, ?_, hl.2.1⟩
  · unfold launch_trace
    cases w.fork_ok <;> rfl
  · intro hf
    simp [launch_trace, hf, execs, child_execs]

/-- C3 at the line `ls -l` in the world `w0`: one `fork`, the child calls
`execvp` with `ls` and `[ls, -l]`. -/
theorem C3_plain_command_launch_witness :
    tokenize "ls -l".toList = ["ls".toList, "-l".toList] ∧
    handle_redirection_and_piping (parse_args "ls -l".toList) w0 =
      (1, parse_args "ls -l".toList, w0) ∧
    (process_command "ls -l".toList w0).trace =
      [Event.fork (some ⟨100, [some Obj.tty, some Obj.tty, some Obj.tty],
          [ChildAct.alarm 10, ChildAct.execvp (some "ls".toList) ["ls".toList, "-l".toList],
            ChildAct.perror "Error executing command", ChildAct.exit 1]⟩),
        Event.waitpid (some 100), Event.alarm 0] :=
  ⟨by decide,
    (C3_plain_command_launch "ls -l".toList w0 "ls".toList ["-l".toList]
      (by decide) (by decide) (by decide)).1,
    (C3_plain_command_launch "ls -l".toList w0 "ls".toList ["-l".toList]
      (by decide) (by decide) (by decide)).2.1⟩

/-! ## Redirection -/

theorem launch_trace_congr (w w1 : World) (fds : FdTable) (file : Option CStr)
    (argv : List CStr) (h1 : w1.fork_ok = w.fork_ok) (h2 : w1.next_pid = w.next_pid) :
    launch_trace w1 fds file argv = launch_trace w fds file argv := by
  unfold launch_trace
  rw [h1, h2]

/-- A successful `open` for the operator `op`. -/
theorem openFile_ok (w : World) (op path : CStr)
    (hop : (op = "<".toList ∧ w.can_read path = true) ∨
      (op = ">".toList ∧ w.can_create path = true)) :
    (openFile (some path) (redirect_mode op) w).1 = some (lowest_free w.fds) ∧
    (openFile (some path) (redirect_mode op) w).2.trace =
      w.trace ++ [Event.openFile (some path) (redirect_mode op) (some (lowest_free w.fds))] := by
  rcases hop with ⟨h1, h2⟩ | ⟨h1, h2⟩
  · subst h1
    have : redirect_mode "<".toList = OpenMode.rdonly := by decide
    rw [this]
    simp [openFile, h2]
  · subst h1
    have : redirect_mode ">".toList = OpenMode.wronly_creat_trunc := by decide
    rw [this]
    simp [openFile, h2]

/-- A failing `open` for the operator `op`: a missing path or a file that
cannot be opened. -/
theorem openFile_fail (w : World) (op : CStr) (p : Option CStr)
    (hop : op = "<".toList ∨ op = ">".toList)
    (hfail : ∀ path, p = some path →
      (op = "<".toList → w.can_read path = false) ∧
      (op = ">".toList → w.can_create path = false)) :
    openFile p (redirect_mode op) w =
      (none, log (Event.openFile p (redirect_mode op) none) w) := by
  cases p with
  | none => rfl
  | some path =>
    have hf := hfail path rfl
    rcases hop with h1 | h1
    · subst h1
      have : redirect_mode "<".toList = OpenMode.rdonly := by decide
      rw [this]
      simp [openFile, hf.1 rfl]
    · subst h1
      have : redirect_mode ">".toList = OpenMode.wronly_creat_trunc := by decide
      rw [this]
      simp [openFile, hf.2 rfl]

/-- One step of the second loop at a slot that holds `<` or `>`. -/
theorem redirect_loop_at_op (n i : Nat) (args : List (Option CStr)) (w : World) (op : CStr)
    (ha : arg args i = some op) (hop : op = "<".toList ∨ op = ">".toList) :
    redirect_loop (n + 1) i args w =
      (match openFile (arg args (i + 1)) (redirect_mode op) w with
        | (none, w1) => (0, args, perror (redirect_error op) w1)
        | (some fd, w1) => (1, args.set i none, close fd (dup2 fd (redirect_target op) w1))) := by
  rw [redirect_loop, ha]
  rcases hop with h | h
  · subst h
    have h1 : ¬ ("<".toList = ">".toList) := by decide
    have h2 : redirect_mode "<".toList = OpenMode.rdonly := by decide
    have h3 : redirect_target "<".toList = 0 := by decide
    have h4 : redirect_error "<".toList = "Error opening file for input redirection" := by
      decide
    simp only [h1, if_false, if_true, h2, h3, h4]
  · subst h
    have h2 : redirect_mode ">".toList = OpenMode.wronly_creat_trunc := by decide
    have h3 : redirect_target ">".toList = 1 := by decide
    have h4 : redirect_error ">".toList = "Error opening file for output redirection" := by
      decide
    simp only [if_true, h2, h3, h4]

/-- On a vector without `|` whose first `<` or `>` follows the tokens `pre`,
`handle_redirection_and_piping` is one step of its second loop at that slot. -/
theorem handle_at_op (pre : List CStr) (op : CStr) (rest : List CStr) (w : World)
    (hpipe : ∀ t ∈ pre ++ op :: rest, t ≠ "|".toList)
    (hpre : ∀ t ∈ pre, t ≠ "<".toList ∧ t ≠ ">".toList)
    (hop : op = "<".toList ∨ op = ">".toList) :
    handle_redirection_and_piping ((pre ++ op :: rest).map some ++ [none]) w =
      (match openFile (rest.head?) (redirect_mode op) w with
        | (none, w1) => (0, (pre ++ op :: rest).map some ++ [none],
            perror (redirect_error op) w1)
        | (some fd, w1) => (1, pre.map some ++ none :: (rest.map some ++ [none]),
            close fd (dup2 fd (redirect_target op) w1))) := by
  have hargs : (pre ++ op :: rest).map some ++ [none] =
      pre.map some ++ some op :: (rest.map some ++ [none]) := by simp
  have hlen : (pre ++ op :: rest).length + 1 = pre.length + (rest.length + 1 + 1) := by
    simp; omega
  rw [handle_no_pipe _ w hpipe, hlen, hargs,
    redirect_loop_skip _ w pre.length pre.length 0 (rest.length + 1 + 1) (by omega)]
  · have ha : arg (pre.map some ++ some op :: (rest.map some ++ [none])) pre.length =
        some op := by rw [arg_tokens_end]; rfl
    have hn : arg (pre.map some ++ some op :: (rest.map some ++ [none])) (pre.length + 1) =
        rest.head? := by
      rw [arg_tokens_end_succ]
      cases rest <;> rfl
    rw [redirect_loop_at_op _ _ _ w op ha hop, hn, set_tokens]
  · intro j _ hj
    exact ⟨pre.get ⟨j, hj⟩, arg_tokens pre _ j hj,
      (hpre _ (List.get_mem pre j hj)).2, (hpre _ (List.get_mem pre j hj)).1⟩

/-- C4, as stated, fails: on `sort < in.txt -r`, where `in.txt` can be opened,
the child is exec'd with the vector `[sort]`, while the tokens with the operator
and its path removed are `[sort, -r]`. -/
theorem C4_counterexample :
    tokenize "sort < in.txt -r".toList =
      ["sort".toList, "<".toList, "in.txt".toList, "-r".toList] ∧
    w0.can_read "in.txt".toList = true ∧
    execs (process_command "sort < in.txt -r".toList w0).trace =
      [(some "sort".toList, ["sort".toList])] ∧
    ["sort".toList] ≠ (tokenize "sort < in.txt -r".toList).take 1 ++
      (tokenize "sort < in.txt -r".toList).drop 3 := by
  decide

/-- C4, amended. For every line with no `|` token whose first token is not a
built-in name and whose first `<` or `>` token, at index `pre.length`, is followed
by a path that opens successfully: `handle_redirection_and_piping` returns 1 and
truncates the vector at the operator, the calls of `process_command` are the
`open`, the `dup2` and the `close`, then the launch, and the vector handed to
`execvp` is the tokens before the operator, in order; the tokens behind the
operator are not passed on. -/
theorem C4_redirect_truncates (line : CStr) (w : World) (t0 : CStr) (pre : List CStr)
    (op path : CStr) (rest : List CStr)
    (htok : tokenize line = pre ++ op :: path :: rest)
    (h0 : (tokenize line).head? = some t0) (hb : t0 ∉ builtin_names)
    (hpipe : ∀ t ∈ tokenize line, t ≠ "|".toList)
    (hpre : ∀ t ∈ pre, t ≠ "<".toList ∧ t ≠ ">".toList)
    (hop : (op = "<".toList ∧ w.can_read path = true) ∨
      (op = ">".toList ∧ w.can_create path = true)) :
    (handle_redirection_and_piping (parse_args line) w).1 = 1 ∧
    argv_from (handle_redirection_and_piping (parse_args line) w).2.1 0 = pre ∧
    (process_command line w).trace =
      w.trace ++ [Event.openFile (some path) (redirect_mode op) (some (lowest_free w.fds)),
        Event.dup2 (lowest_free w.fds) (redirect_target op),
        Event.close (lowest_free w.fds)] ++
      launch_trace w (process_command line w).fds pre.head? pre ∧
    (w.fork_ok = true →
      execs (launch_trace w (process_command line w).fds pre.head? pre) = [(pre.head?, pre)]) := by
  have hop2 : op = "<".toList ∨ op = ">".toList := hop.elim (fun h => Or.inl h.1) (fun h => Or.inr h.1)
  obtain ⟨r, rs, hr⟩ : ∃ r rs, tokenize line = r :: rs := by
    cases h : tokenize line with
    | nil => rw [h] at h0; simp at h0
    | cons r rs => exact ⟨r, rs, rfl⟩
  have hr0 : r = t0 := by rw [hr] at h0; simpa using h0
  subst hr0
  have hh := handle_at_op pre op (path :: rest) w (htok ▸ hpipe) hpre hop2
  have ho := openFile_ok w op path hop
  have hp : parse_args line = (pre ++ op :: path :: rest).map some ++ [none] := by
    unfold parse_args; rw [htok]
  rw [← hp] at hh
  simp only [List.head?_cons] at hh
  cases hopen : openFile (some path) (redirect_mode op) w with
  | mk res w1 =>
    rw [hopen] at ho hh
    simp only at ho
    obtain ⟨ho1, ho2⟩ := ho
    subst ho1
    simp only at hh
    have hpc : process_command line w =
        (match fork [ChildAct.alarm 10,
            ChildAct.execvp
              (arg (pre.map some ++ none :: ((path :: rest).map some ++ [none])) 0)
              (argv_from (pre.map some ++ none :: ((path :: rest).map some ++ [none])) 0),
            ChildAct.perror "Error executing command", ChildAct.exit 1]
            (close (lowest_free w.fds) (dup2 (lowest_free w.fds) (redirect_target op) w1)) with
          | (some pid, w2) => alarm 0 (waitpid (some pid) w2)
          | (none, w2) => perror "Failed to create process" w2) := by
      rw [process_command_external line w r rs hr hb]
      unfold execute_external
      rw [hh]
    have hl := launch_spec _ _ _ hpc
    rw [arg_zero_tokens, argv_from_tokens] at hl
    have hfo : w1.fork_ok = w.fork_ok := by
      have := openFile_fork_ok (some path) (redirect_mode op) w
      rw [hopen] at this; exact this
    have hnp : w1.next_pid = w.next_pid := by
      have := openFile_next_pid (some path) (redirect_mode op) w
      rw [hopen] at this; exact this
    refine ⟨by rw [hh], by rw [hh]; exact argv_from_tokens _ _, ?_, ?_⟩
    · rw [hl.1, hl.2.1]
      rw [launch_trace_congr w _ _ _ _ (by simp [hfo]) (by simp [hnp])]
      simp [ho2]
    · intro hf
      simp [launch_trace, hf, execs, child_execs]

/-- C4, amended, at the line `sort < in.txt -r` in the world `w0`: the vector
handed to `execvp` is `[sort]`. -/
theorem C4_redirect_truncates_witness :
    tokenize "sort < in.txt -r".toList =
      ["sort".toList] ++ "<".toList :: "in.txt".toList :: ["-r".toList] ∧
    w0.can_read "in.txt".toList = true ∧
    argv_from (handle_redirection_and_piping (parse_args "sort < in.txt -r".toList) w0).2.1 0 =
      ["sort".toList] ∧
    (process_command "sort < in.txt -r".toList w0).trace =
      [Event.openFile (some "in.txt".toList) OpenMode.rdonly (some 3),
        Event.dup2 3 0, Event.close 3,
        Event.fork (some ⟨100,
          [some (Obj.file "in.txt".toList false), some Obj.tty, some Obj.tty, none],
          [ChildAct.alarm 10, ChildAct.execvp (some "sort".toList) ["sort".toList],
            ChildAct.perror "Error executing command", ChildAct.exit 1]⟩),
        Event.waitpid (some 100), Event.alarm 0] :=
  ⟨by decide, by decide,
    (C4_redirect_truncates "sort < in.txt -r".toList w0 "sort".toList ["sort".toList]
      "<".toList "in.txt".toList ["-r".toList]
      (by decide) (by decide) (by decide) (by decide) (by decide) (Or.inl (by decide))).2.1,
    (C4_redirect_truncates "sort < in.txt -r".toList w0 "sort".toList ["sort".toList]
      "<".toList "in.txt".toList ["-r".toList]
      (by decide) (by decide) (by decide) (by decide) (by decide)
      (Or.inl (by decide))).2.2.1.trans (by decide)⟩

/-- C5. For every line whose first token is not a built-in name, with no `|`
token, whose first `<` or `>` token is the last token or is followed by a path
whose `open` fails: `handle_redirection_and_piping` returns 0 after the `open`
call has failed and the error has been reported; `process_command` makes these
two calls and no other (no `fork`), and leaves everything else in the world,
the descriptor table included, as it was. -/
theorem C5_redirect_failure_aborts (line : CStr) (w : World) (t0 : CStr) (pre : List CStr)
    (op : CStr) (rest : List CStr)
    (htok : tokenize line = pre ++ op :: rest)
    (h0 : (tokenize line).head? = some t0) (hb : t0 ∉ builtin_names)
    (hpipe : ∀ t ∈ tokenize line, t ≠ "|".toList)
    (hpre : ∀ t ∈ pre, t ≠ "<".toList ∧ t ≠ ">".toList)
    (hop : op = "<".toList ∨ op = ">".toList)
    (hfail : rest = [] ∨ ∃ path rest1, rest = path :: rest1 ∧
      ((op = "<".toList ∧ w.can_read path = false) ∨
       (op = ">".toList ∧ w.can_create path = false))) :
    handle_redirection_and_piping (parse_args line) w =
      (0, parse_args line, process_command line w) ∧
    process_command line w =
      { w with trace := w.trace ++
          [Event.openFile rest.head? (redirect_mode op) none,
           Event.perror (redirect_error op)] } ∧
    fork_count [Event.openFile rest.head? (redirect_mode op) none,
      Event.perror (redirect_error op)] = 0 ∧
    (process_command line w).fds = w.fds := by
  obtain ⟨r, rs, hr⟩ : ∃ r rs, tokenize line = r :: rs := by
    cases h : tokenize line with
    | nil => rw [h] at h0; simp at h0
    | cons r rs => exact ⟨r, rs, rfl⟩
  have hr0 : r = t0 := by rw [hr] at h0; simpa using h0
  subst hr0
  have hf : ∀ path, rest.head? = some path →
      (op = "<".toList → w.can_read path = false) ∧
      (op = ">".toList → w.can_create path = false) := by
    intro path hpath
    rcases hfail with h | ⟨p, rest1, h, hc⟩
    · subst h; simp at hpath
    · subst h
      have : p = path := by simpa using hpath
      subst this
      have hne : ¬ ("<".toList = ">".toList) := by decide
      rcases hc with ⟨h1, h2⟩ | ⟨h1, h2⟩
      · exact ⟨fun _ => h2, fun h => absurd (h1.symm.trans h) hne⟩
      · exact ⟨fun h => absurd (h.symm.trans h1) hne, fun _ => h2⟩
  have hh := handle_at_op pre op rest w (htok ▸ hpipe) hpre hop
  have hp : parse_args line = (pre ++ op :: rest).map some ++ [none] := by
    unfold parse_args; rw [htok]
  rw [← hp, openFile_fail w op rest.head? hop hf] at hh
  simp only at hh
  have hpc : process_command line w = perror (redirect_error op)
      (log (Event.openFile rest.head? (redirect_mode op) none) w) := by
    rw [process_command_external line w r rs hr hb]
    unfold execute_external
    rw [hh]
  have hw : perror (redirect_error op)
      (log (Event.openFile rest.head? (redirect_mode op) none) w) =
      { w with trace := w.trace ++
          [Event.openFile rest.head? (redirect_mode op) none,
           Event.perror (redirect_error op)] } := by
    simp [perror, log]
  refine ⟨by rw [hh, hpc], by rw [hpc, hw], rfl, by rw [hpc]; rfl⟩

/-- C5 at the line `ls >`, where the operator is the last token, in `w0`: the
failed `open` and the error report are the only calls. -/
theorem C5_redirect_failure_aborts_witness :
    tokenize "ls >".toList = ["ls".toList] ++ ">".toList :: [] ∧
    handle_redirection_and_piping (parse_args "ls >".toList) w0 =
      (0, parse_args "ls >".toList, process_command "ls >".toList w0) ∧
    process_command "ls >".toList w0 =
      { w0 with trace := [Event.openFile none OpenMode.wronly_creat_trunc none,
          Event.perror "Error opening file for output redirection"] } ∧
    (process_command "ls >".toList w0).fds = w0.fds :=
  ⟨by decide,
    (C5_redirect_failure_aborts "ls >".toList w0 "ls".toList ["ls".toList] ">".toList []
      (by decide) (by decide) (by decide) (by decide) (by decide) (Or.inr (by decide))
      (Or.inl rfl)).1,
    (C5_redirect_failure_aborts "ls >".toList w0 "ls".toList ["ls".toList] ">".toList []
      (by decide) (by decide) (by decide) (by decide) (by decide) (Or.inr (by decide))
      (Or.inl rfl)).2.1,
    (C5_redirect_failure_aborts "ls >".toList w0 "ls".toList ["ls".toList] ">".toList []
      (by decide) (by decide) (by decide) (by decide) (by decide) (Or.inr (by decide))
      (Or.inl rfl)).2.2.2⟩

/-- An `open` that fails on an existing path token: on `cat < missing.txt`, in a
world where no file can be opened, the failed `open` and the error report are
the only calls, and the descriptor table is as before. -/
theorem redirect_open_failure_example :
    (process_command "cat < missing.txt".toList w0_locked).trace =
      [Event.openFile (some "missing.txt".toList) OpenMode.rdonly none,
        Event.perror "Error opening file for input redirection"] ∧
    (process_command "cat < missing.txt".toList w0_locked).fds = w0_locked.fds := by
  decide

/-! ## The built-in `echo` -/

/-- Two `printf` calls in a row write the concatenated text. -/
theorem printf_printf (a b : CStr) (w : World) : printf a (printf b w) = printf (b ++ a) w := by
  cases h : fd_get w.fds 1 with
  | none => simp [printf, h]
  | some o =>
    cases o with
    | tty => simp [printf, h]
    | file p wr =>
      cases wr
      · simp [printf, h]
      · simp only [printf, h, List.append_assoc]
        congr 1
        funext q
        by_cases hq : q = p <;> simp [hq]
    | pipeRead n => simp [printf, h]
    | pipeWrite n => simp [printf, h]

theorem arg_append_length (front : List (Option CStr)) (x : Option CStr)
    (tl : List (Option CStr)) : arg (front ++ x :: tl) front.length = x := by
  induction front with
  | nil => rfl
  | cons f front ih => simpa [arg] using ih

/-- The loop of `perform_echo` from the slot behind `front` on: together with
the `printf` that follows, it writes the remaining pieces, each followed by one
space. -/
theorem echo_loop_spec (ts : List CStr) :
    ∀ (front : List (Option CStr)) (n : Nat) (w : World) (a : CStr), ts.length ≤ n →
      printf a (echo_loop n front.length (front ++ (ts.map some ++ [none])) w) =
        printf (((ts.filterMap (echo_piece w.environ)).map (fun p => p ++ [' '])).flatten ++ a)
          w := by
  induction ts with
  | nil =>
    intro front n w a _
    cases n with
    | zero => simp [echo_loop]
    | succ n =>
      rw [echo_loop]
      simp [arg_append_length]
  | cons t ts ih =>
    intro front n w a hn
    cases n with
    | zero => simp at hn
    | succ n =>
      have hn2 : ts.length ≤ n := by simpa using hn
      have hargs : front ++ ((t :: ts).map some ++ [none]) =
          (front ++ [some t]) ++ (ts.map some ++ [none]) := by simp
      have hlen : front.length + 1 = (front ++ [some t]).length := by simp
      have ha : arg (front ++ ((t :: ts).map some ++ [none])) front.length = some t := by
        simpa using arg_append_length front (some t) (ts.map some ++ [none])
      rw [echo_loop, ha]
      simp only
      by_cases hd : t.head? = some '$'
      · simp only [hd, if_true]
        cases hg : getenv w.environ (t.drop 1) with
        | none =>
          have hp : echo_piece w.environ t = none := by
            unfold echo_piece; rw [if_pos hd]; exact hg
          rw [hargs, hlen, ih (front ++ [some t]) n w a hn2, List.filterMap_cons_none hp]
        | some value =>
          have hp : echo_piece w.environ t = some value := by
            unfold echo_piece; rw [if_pos hd]; exact hg
          rw [hargs, hlen, ih (front ++ [some t]) n _ a hn2, printf_printf,
            List.filterMap_cons_some hp]
          simp
      · simp only [hd, if_false]
        have hp : echo_piece w.environ t = some t := by
          unfold echo_piece; rw [if_neg hd]
        rw [hargs, hlen, ih (front ++ [some t]) n _ a hn2, printf_printf,
          List.filterMap_cons_some hp]
        simp

/-- The function `perform_echo` is one `printf` of the line in which every
piece is followed by a space. -/
theorem perform_echo_eq (t0 : CStr) (rest : List CStr) (w : World) :
    perform_echo ((t0 :: rest).map some ++ [none]) w =
      printf (echo_text_followed w.environ rest) w := by
  unfold perform_echo echo_text_followed
  have h := echo_loop_spec rest [some t0] ((t0 :: rest).map some ++ [none]).length w ['\n']
    (by simp; omega)
  simpa using h

/-- C6, as stated, fails: for `echo a b` the text written is `a b`, a space and
a newline, not `a b` and a newline. -/
theorem C6_counterexample :
    parse_args "echo a b".toList = [some "echo".toList, some "a".toList, some "b".toList, none] ∧
    (perform_echo (parse_args "echo a b".toList) w0).out = "a b \n".toList ∧
    w0.out ++ echo_text_separated w0.environ ["a".toList, "b".toList] = "a b\n".toList ∧
    (perform_echo (parse_args "echo a b".toList) w0).out ≠
      w0.out ++ echo_text_separated w0.environ ["a".toList, "b".toList] := by
  decide

/-- C6, amended. For every argument list and every environment, the text
`perform_echo` writes to standard output is the arguments after `token[0]`, each
argument that begins with `$` replaced by the value of the named variable (and
contributing nothing, not even a space, when the variable is unset), every
written piece followed by exactly one space, also the last one, and then
exactly one newline; it is written as if by a single `printf`. -/
theorem C6_echo_text (t0 : CStr) (rest : List CStr) (w : World) :
    perform_echo ((t0 :: rest).map some ++ [none]) w =
      printf (echo_text_followed w.environ rest) w ∧
    (perform_echo ((t0 :: rest).map some ++ [none]) w).out =
      w.out ++ echo_text_followed w.environ rest := by
  refine ⟨perform_echo_eq t0 rest w, ?_⟩
  rw [perform_echo_eq, printf_out]

/-- C7, as stated, fails: `echo hi > /tmp/t.txt` writes `hi > /tmp/t.txt` and a
newline to the terminal and does not create the file. -/
theorem C7_counterexample :
    fd_get w0.fds 1 = some Obj.tty ∧
    (process_command "echo hi > /tmp/t.txt".toList w0).term = "hi > /tmp/t.txt \n".toList ∧
    (process_command "echo hi > /tmp/t.txt".toList w0).term ≠ w0.term ∧
    (process_command "echo hi > /tmp/t.txt".toList w0).files "/tmp/t.txt".toList = none ∧
    (process_command "echo hi > /tmp/t.txt".toList w0).files "/tmp/t.txt".toList ≠
      some "hi\n".toList := by
  decide

/-- C7, amended. For every line whose first token is `echo` and which has a
`>` token followed by a path token, `process_command` runs the built-in on all
the tokens: it makes no system call (no file is opened), leaves its descriptor
table alone and writes to its standard output the words, the `>` and the path
and what follows, each followed by a space, then a newline; when standard
output is the terminal the text appears there and no file changes. -/
theorem C7_echo_ignores_redirection (line : CStr) (w : World) (ws : List CStr) (path : CStr)
    (rest : List CStr)
    (htok : tokenize line = "echo".toList :: (ws ++ ">".toList :: path :: rest)) :
    process_command line w =
      printf (echo_text_followed w.environ (ws ++ ">".toList :: path :: rest)) w ∧
    (process_command line w).trace = w.trace ∧
    (process_command line w).fds = w.fds ∧
    (process_command line w).out =
      w.out ++ echo_text_followed w.environ (ws ++ ">".toList :: path :: rest) ∧
    (fd_get w.fds 1 = some Obj.tty →
      (process_command line w).files = w.files ∧
      (process_command line w).term =
        w.term ++ echo_text_followed w.environ (ws ++ ">".toList :: path :: rest)) := by
  have h0 : arg (parse_args line) 0 = some "echo".toList := by simp [parse_args, htok, arg]
  have h1 : ¬ ("echo".toList = "cd".toList) := by decide
  have h2 : ¬ ("echo".toList = "pwd".toList) := by decide
  have hpc : process_command line w =
      printf (echo_text_followed w.environ (ws ++ ">".toList :: path :: rest)) w := by
    unfold process_command
    simp only [h0, h1, h2, if_false, if_true]
    unfold parse_args
    rw [htok, perform_echo_eq]
  refine ⟨hpc, ?_, ?_, ?_, ?_⟩
  · rw [hpc, printf_trace]
  · rw [hpc, printf_fds]
  · rw [hpc, printf_out]
  · intro htty
    rw [hpc]
    simp [printf, htty]

/-- C7, amended, at the line `echo hi > /tmp/t.txt` in the world `w0`: no call
is made and the whole line behind `echo` is written to standard output. -/
theorem C7_echo_ignores_redirection_witness :
    tokenize "echo hi > /tmp/t.txt".toList =
      "echo".toList :: (["hi".toList] ++ ">".toList :: "/tmp/t.txt".toList :: []) ∧
    (process_command "echo hi > /tmp/t.txt".toList w0).trace = [] ∧
    (process_command "echo hi > /tmp/t.txt".toList w0).out = "hi > /tmp/t.txt \n".toList :=
  ⟨by decide,
    (C7_echo_ignores_redirection "echo hi > /tmp/t.txt".toList w0 ["hi".toList]
      "/tmp/t.txt".toList [] (by decide)).2.1,
    (C7_echo_ignores_redirection "echo hi > /tmp/t.txt".toList w0 ["hi".toList]
      "/tmp/t.txt".toList [] (by decide)).2.2.2.1.trans (by decide)⟩

/-! ## The environment: `setenv` and `env` -/

theorem isPrefixOf_entry (N V : CStr) : (N ++ ['=']).isPrefixOf (N ++ '=' :: V) = true := by
  rw [List.isPrefixOf_iff_prefix]
  exact ⟨V, by simp⟩

theorem find_environ_set (N V : CStr) (env : List CStr) :
    (environ_set N V env).find? (fun e => (N ++ ['=']).isPrefixOf e) = some (N ++ '=' :: V) := by
  induction env with
  | nil => simp [environ_set, List.find?, isPrefixOf_entry]
  | cons e es ih =>
    by_cases h : (N ++ ['=']).isPrefixOf e = true
    · simp [environ_set, h, List.find?, isPrefixOf_entry]
    · have h2 : (N ++ ['=']).isPrefixOf e = false := Bool.eq_false_iff.2 h
      simp only [environ_set, h2, List.find?]
      simpa using ih

/-- After `setenv(N, V, 1)` has succeeded, `getenv(N)` is `V`. -/
theorem getenv_environ_set (N V : CStr) (hN : N ≠ []) (env : List CStr) :
    getenv (environ_set N V env) N = some V := by
  cases N with
  | nil => exact absurd rfl hN
  | cons c cs =>
    unfold getenv
    simp only [find_environ_set]
    have : (c :: cs) ++ '=' :: V = ((c :: cs) ++ ['=']) ++ V := by simp
    rw [this]
    have hl : (c :: cs).length + 1 = ((c :: cs) ++ ['=']).length := by simp
    rw [hl, List.drop_left]

/-- Three space-free words separated by single spaces are the three tokens. -/
theorem tokenize_three (a b c : CStr) (ha : a ≠ []) (has : ' ' ∉ a) (hb : b ≠ [])
    (hbs : ' ' ∉ b) (hc : c ≠ []) (hcs : ' ' ∉ c) :
    tokenize (a ++ [' '] ++ b ++ [' '] ++ c) = [a, b, c] := by
  have hw : words (a ++ [' '] ++ b ++ [' '] ++ c) = [a, b, c] := by
    have e : a ++ [' '] ++ b ++ [' '] ++ c = a ++ ' ' :: (b ++ ' ' :: c) := by simp
    rw [e, words_token a _ ha has, words_token b _ hb hbs, words_single c hc hcs]
  unfold tokenize
  rw [(parse_loop_spec _ _).1, hw]
  rfl

/-- Two space-free words separated by a single space are the two tokens. -/
theorem tokenize_two (a b : CStr) (ha : a ≠ []) (has : ' ' ∉ a) (hb : b ≠ [])
    (hbs : ' ' ∉ b) : tokenize (a ++ [' '] ++ b) = [a, b] := by
  have hw : words (a ++ [' '] ++ b) = [a, b] := by
    have e : a ++ [' '] ++ b = a ++ ' ' :: b := by simp
    rw [e, words_token a _ ha has, words_single b hb hbs]
  unfold tokenize
  rw [(parse_loop_spec _ _).1, hw]
  rfl

/-- The line `setenv N V` runs the built-in, which binds `N` to `V`. -/
theorem process_setenv (w : World) (N V : CStr) (hN : N ≠ []) (hNeq : '=' ∉ N)
    (hNsp : ' ' ∉ N) (hV : V ≠ []) (hVsp : ' ' ∉ V) :
    process_command ("setenv".toList ++ [' '] ++ N ++ [' '] ++ V) w =
      log (Event.setenv N V true) { w with environ := environ_set N V w.environ } := by
  have htok := tokenize_three "setenv".toList N V (by decide) (by decide) hN hNsp hV hVsp
  have h1 : ¬ ("setenv".toList = "cd".toList) := by decide
  have h2 : ¬ ("setenv".toList = "pwd".toList) := by decide
  have h3 : ¬ ("setenv".toList = "echo".toList) := by decide
  have h4 : ¬ ("setenv".toList = "env".toList) := by decide
  unfold process_command parse_args
  rw [htok]
  simp only [arg, List.map, List.cons_append, List.nil_append, List.getD_cons_zero,
    List.getD_cons_succ, h1, h2, h3, h4, if_false, Option.isSome, and_self, if_true,
    Option.getD]
  simp [update_environment_variable, setenv, hN, hNeq]

/-- The line `env N` prints the value of `N` when it is bound. -/
theorem process_env (w : World) (N V : CStr) (hN : N ≠ []) (hNsp : ' ' ∉ N)
    (hg : getenv w.environ N = some V) :
    process_command ("env".toList ++ [' '] ++ N) w = printf (V ++ ['\n']) w := by
  have htok := tokenize_two "env".toList N (by decide) (by decide) hN hNsp
  have h1 : ¬ ("env".toList = "cd".toList) := by decide
  have h2 : ¬ ("env".toList = "pwd".toList) := by decide
  have h3 : ¬ ("env".toList = "echo".toList) := by decide
  unfold process_command parse_args
  rw [htok]
  simp only [arg, List.map, List.cons_append, List.nil_append, List.getD_cons_zero,
    List.getD_cons_succ, h1, h2, h3, if_false, if_true, display_environment_variables, hg]

/-- C9. For every world, every non-empty name `N` without `=` and without
space and every non-empty space-free value `V`: after `process_command` has run
on `setenv N V`, running it on `env N` writes exactly `V` and a newline to
standard output (one `printf`), whether or not `N` was bound before; the first
call writes nothing. -/
theorem C9_setenv_then_env (w : World) (N V : CStr) (hN : N ≠ []) (hNeq : '=' ∉ N)
    (hNsp : ' ' ∉ N) (hV : V ≠ []) (hVsp : ' ' ∉ V) :
    process_command ("env".toList ++ [' '] ++ N)
        (process_command ("setenv".toList ++ [' '] ++ N ++ [' '] ++ V) w) =
      printf (V ++ ['\n']) (process_command ("setenv".toList ++ [' '] ++ N ++ [' '] ++ V) w) ∧
    (process_command ("env".toList ++ [' '] ++ N)
        (process_command ("setenv".toList ++ [' '] ++ N ++ [' '] ++ V) w)).out =
      (process_command ("setenv".toList ++ [' '] ++ N ++ [' '] ++ V) w).out ++ (V ++ ['\n']) ∧
    (process_command ("setenv".toList ++ [' '] ++ N ++ [' '] ++ V) w).out = w.out := by
  have hs := process_setenv w N V hN hNeq hNsp hV hVsp
  have hg : getenv (process_command ("setenv".toList ++ [' '] ++ N ++ [' '] ++ V) w).environ N =
      some V := by
    rw [hs]
    exact getenv_environ_set N V hN w.environ
  have he := process_env _ N V hN hNsp hg
  refine ⟨he, ?_, ?_⟩
  · rw [he, printf_out]
  · rw [hs]; rfl

/-- C9 at `setenv FOO bar` followed by `env FOO` in the world `w0`: the second
call writes `bar` and a newline. -/
theorem C9_setenv_then_env_witness :
    "setenv".toList ++ [' '] ++ "FOO".toList ++ [' '] ++ "bar".toList =
      "setenv FOO bar".toList ∧
    "env".toList ++ [' '] ++ "FOO".toList = "env FOO".toList ∧
    (process_command "setenv FOO bar".toList w0).out = [] ∧
    (process_command "env FOO".toList (process_command "setenv FOO bar".toList w0)).out =
      "bar\n".toList :=
  ⟨by decide, by decide,
    (C9_setenv_then_env w0 "FOO".toList "bar".toList (by decide) (by decide) (by decide)
      (by decide) (by decide)).2.2,
    (C9_setenv_then_env w0 "FOO".toList "bar".toList (by decide) (by decide) (by decide)
      (by decide) (by decide)).2.1.trans (by decide)⟩

/-! ## External execution leaves the environment alone -/

theorem pipe_loop_environ (n : Nat) : ∀ (i : Nat) (s : PipeScan),
    (pipe_loop n i s).w.environ = s.w.environ := by
  induction n with
  | zero => intro i s; rfl
  | succ n ih =>
    intro i s
    rw [pipe_loop]
    cases arg s.args i with
    | none => rfl
    | some a =>
      simp only
      by_cases h : a = "|".toList
      · simp only [h, if_true]
        rw [ih]
        exact pipe_environ s.w
      · simp only [h, if_false]
        exact ih _ _

theorem redirect_loop_environ (n : Nat) : ∀ (i : Nat) (args : List (Option CStr)) (w : World),
    (redirect_loop n i args w).2.2.environ = w.environ := by
  induction n with
  | zero => intro i args w; rfl
  | succ n ih =>
    intro i args w
    rw [redirect_loop]
    cases arg args i with
    | none => rfl
    | some a =>
      simp only
      by_cases h1 : a = ">".toList
      · simp only [h1, if_true]
        have he := openFile_environ (arg args (i + 1)) OpenMode.wronly_creat_trunc w
        cases ho : openFile (arg args (i + 1)) OpenMode.wronly_creat_trunc w with
        | mk res w1 =>
          rw [ho] at he
          cases res <;> simpa using he
      · simp only [h1, if_false]
        by_cases h2 : a = "<".toList
        · simp only [h2, if_true]
          have he := openFile_environ (arg args (i + 1)) OpenMode.rdonly w
          cases ho : openFile (arg args (i + 1)) OpenMode.rdonly w with
          | mk res w1 =>
            rw [ho] at he
            cases res <;> simpa using he
        · simp only [h2, if_false]
          exact ih _ _ _

theorem handle_environ (args : List (Option CStr)) (w : World) :
    (handle_redirection_and_piping args w).2.2.environ = w.environ := by
  unfold handle_redirection_and_piping
  have hp := pipe_loop_environ args.length 0
    { args := args, has_pipe := false, pipe_fds := (0, 0), w := w }
  simp only at hp ⊢
  split
  · simp only [run_pipeline, waitpid_environ, close_environ, fork_environ]
    exact hp
  · rw [redirect_loop_environ]
    exact hp

theorem execute_external_environ (args : List (Option CStr)) (w : World) :
    (execute_external args w).environ = w.environ := by
  have hh := handle_environ args w
  unfold execute_external
  cases h : handle_redirection_and_piping args w with
  | mk r p =>
    obtain ⟨args1, w1⟩ := p
    rw [h] at hh
    simp only at hh
    cases r with
    | zero => exact hh
    | succ r =>
      simp only
      have hl := launch_spec args1 w1 _ rfl
      rw [hl.2.2, hh]

/-- C2 fails on the code: on the tokens of `echo a b | wc -w`, and on the line
`cat a b | wc -w` that reaches the same code through `process_command`, the
right child is exec'd with the program name `a` and the vector `[a, b]`
(`args[1]` and `&args[1]`), not with `wc` and `[wc, -w]`. -/
theorem C2_pipe_right_child_is_second_token :
    parse_args "echo a b | wc -w".toList =
      [some "echo".toList, some "a".toList, some "b".toList, some "|".toList,
        some "wc".toList, some "-w".toList, none] ∧
    execs (handle_redirection_and_piping (parse_args "echo a b | wc -w".toList) w0).2.2.trace =
      [(some "echo".toList, ["echo".toList, "a".toList, "b".toList]),
       (some "a".toList, ["a".toList, "b".toList])] ∧
    fork_count (process_command "cat a b | wc -w".toList w0).trace = 2 ∧
    execs (process_command "cat a b | wc -w".toList w0).trace =
      [(some "cat".toList, ["cat".toList, "a".toList, "b".toList]),
       (some "a".toList, ["a".toList, "b".toList])] := by
  decide

/-- C8 fails on the code: after `ls > out.txt` has been processed, descriptor 1
of the interpreter itself refers to `out.txt` instead of the terminal, and the
output of a later `pwd` goes to that file and not to the terminal. -/
theorem C8_parent_stdout_stays_redirected :
    fd_get w0.fds 1 = some Obj.tty ∧
    fd_get (process_command "ls > out.txt".toList w0).fds 1 =
      some (Obj.file "out.txt".toList true) ∧
    (process_command "pwd".toList (process_command "ls > out.txt".toList w0)).term = [] ∧
    (process_command "pwd".toList (process_command "ls > out.txt".toList w0)).files
      "out.txt".toList = some "/\n".toList := by
  decide

/-! ## `setenv` with missing arguments -/

/-- C10, as stated, fails: `setenv FOO` makes `process_command` fork a child
that calls `execvp` with the program name `setenv`, and the interpreter reports
no error. -/
theorem C10_counterexample :
    tokenize "setenv FOO".toList = ["setenv".toList, "FOO".toList] ∧
    fork_count (process_command "setenv FOO".toList w0).trace = 1 ∧
    execs (process_command "setenv FOO".toList w0).trace =
      [(some "setenv".toList, ["setenv".toList, "FOO".toList])] ∧
    perrors (process_command "setenv FOO".toList w0).trace = [] := by
  decide

/-- C10, amended. For every line whose first token is `setenv` and which has
fewer than two further tokens, `process_command` does not run the built-in: it
leaves the environment unchanged and routes the line to External Execution like
a line that names no built-in; when no further token is an operator it forks
once and the child calls `execvp` with the program name `setenv` and all the
tokens, and the interpreter reports an error only if that `fork` fails. -/
theorem C10_setenv_missing_arguments (line : CStr) (w : World) (rest : List CStr)
    (htok : tokenize line = "setenv".toList :: rest) (hlen : rest.length < 2) :
    process_command line w = execute_external (parse_args line) w ∧
    (process_command line w).environ = w.environ ∧
    ((∀ t ∈ rest, t ∉ operators) →
      (process_command line w).trace =
        w.trace ++ launch_trace w w.fds (some "setenv".toList) (tokenize line)) := by
  have h1 : ¬ ("setenv".toList = "cd".toList) := by decide
  have h2 : ¬ ("setenv".toList = "pwd".toList) := by decide
  have h3 : ¬ ("setenv".toList = "echo".toList) := by decide
  have h4 : ¬ ("setenv".toList = "env".toList) := by decide
  have h5 : ¬ ("setenv".toList = "exit".toList) := by decide
  have h0 : arg (parse_args line) 0 = some "setenv".toList := by
    simp [parse_args, htok, arg]
  have h2n : arg (parse_args line) 2 = none := by
    unfold parse_args
    rw [htok]
    match rest, hlen with
    | [], _ => rfl
    | [x], _ => rfl
  have hpc : process_command line w = execute_external (parse_args line) w := by
    unfold process_command
    simp only [h0, h1, h2, h3, h4, h5, h2n, if_false, Option.isSome, and_false, and_self]
    simp
  refine ⟨hpc, ?_, ?_⟩
  · rw [hpc, execute_external_environ]
  · intro hop
    have hops : ∀ t ∈ tokenize line, t ∉ operators := by
      intro t ht
      rw [htok] at ht
      rcases List.mem_cons.1 ht with h | h
      · subst h; decide
      · exact hop t h
    have hh : handle_redirection_and_piping (parse_args line) w = (1, parse_args line, w) :=
      handle_plain (tokenize line) w hops
    have hp2 : process_command line w =
        (match fork [ChildAct.alarm 10,
            ChildAct.execvp (arg (parse_args line) 0) (argv_from (parse_args line) 0),
            ChildAct.perror "Error executing command", ChildAct.exit 1] w with
          | (some pid, w2) => alarm 0 (waitpid (some pid) w2)
          | (none, w2) => perror "Failed to create process" w2) := by
      rw [hpc]
      unfold execute_external
      rw [hh]
    have hv : argv_from (parse_args line) 0 = tokenize line := argv_from_tokens _ []
    have hl := launch_spec (parse_args line) w _ hp2
    rw [h0, hv] at hl
    exact hl.1

/-- C10, amended, at the line `setenv FOO` in the world `w0`: the environment
is unchanged and a child is forked that calls `execvp` with `setenv`. -/
theorem C10_setenv_missing_arguments_witness :
    tokenize "setenv FOO".toList = "setenv".toList :: ["FOO".toList] ∧
    (process_command "setenv FOO".toList w0).environ = w0.environ ∧
    (process_command "setenv FOO".toList w0).trace =
      [Event.fork (some ⟨100, [some Obj.tty, some Obj.tty, some Obj.tty],
          [ChildAct.alarm 10,
            ChildAct.execvp (some "setenv".toList) ["setenv".toList, "FOO".toList],
            ChildAct.perror "Error executing command", ChildAct.exit 1]⟩),
        Event.waitpid (some 100), Event.alarm 0] :=
  ⟨by decide,
    (C10_setenv_missing_arguments "setenv FOO".toList w0 ["FOO".toList]
      (by decide) (by decide)).2.1,
    (C10_setenv_missing_arguments "setenv FOO".toList w0 ["FOO".toList]
      (by decide) (by decide)).2.2 (by decide)⟩

end Shell
